import Mathlib

/-!
Shallow embedding of `src/galera_pk_discrepancy_checker.py`: the per-(table,
node) probe (`scan_table` with its helpers `get_last_record`,
`get_primary_key`, `has_filter_column` abstracted as an oracle environment),
the result-reduction loop of `main`, the discrepancy detection over rendered
cells, and the host-discovery loop.  Python dictionaries are modelled as
insertion-ordered association lists; Python truthiness and string rendering
are modelled explicitly.
-/

namespace Galera

/-- A Python scalar as it can appear as a fetched primary-key value or as one
of the sentinel strings the script passes through the result tuple. -/
inductive PyVal where
  | intV (n : Int)
  | strV (s : String)
deriving DecidableEq, Repr

/-- Python `str()` on the modelled scalars. -/
def PyVal.toStr : PyVal → String
  | .intV n => toString n
  | .strV s => s

/-- Python truthiness on the modelled scalars (`0` and `""` are falsy). -/
def PyVal.truthy : PyVal → Bool
  | .intV n => !(n = 0)
  | .strV s => !(s = "")

/-- One row of a table as the windowed query sees it: the primary-key value
of the row and its filter-column value (a timestamp, in seconds). -/
structure Row where
  pk : PyVal
  filt : Int
deriving DecidableEq, Repr

/-- Seconds in the SQL `INTERVAL 1 DAY`. -/
def oneDay : Int := 86400

/-- The WHERE clause of the windowed query:
`filter_column >= target_date AND filter_column < target_date + INTERVAL 1 DAY`. -/
def inWindow (d : Int) (r : Row) : Bool :=
  decide (d ≤ r.filt) && decide (r.filt < d + oneDay)

/-- One step of resolving `ORDER BY filter_column DESC LIMIT 1`: keep the row
with the larger filter-column value (the earlier row on ties). -/
def scanStep (best x : Row) : Row :=
  if best.filt < x.filt then x else best

/-- Embedding of `get_last_record`: the query
`SELECT pk FROM t WHERE filter_column >= d AND filter_column < d + INTERVAL 1 DAY
ORDER BY filter_column DESC LIMIT 1` over the node's rows, returning the
primary-key value of the selected row, or `none` when no row matches. -/
def get_last_record (rows : List Row) (d : Int) : Option PyVal :=
  match rows.filter (inWindow d) with
  | [] => none
  | r :: rs => some ((rs.foldl scanStep r).pk)

/-- The result of a call that may raise a Python exception. -/
inductive DbRes (α : Type) where
  | ok (a : α)
  | exn
deriving DecidableEq, Repr

/-- The oracle environment of one probe: whether `get_connection` succeeds,
and what `get_primary_key`, `has_filter_column` and `get_last_record` return
(or whether they raise) on this node for this table. -/
structure ProbeEnv where
  conn : Bool
  pkCol : DbRes (Option String)
  hasFilt : DbRes Bool
  lastRec : DbRes (Option PyVal)
deriving DecidableEq, Repr

/-- The 4-tuple `(table, host, pk_col, value)` a probe thread returns. -/
structure ScanRes where
  table : String
  host : String
  pk : Option String
  value : PyVal
deriving DecidableEq, Repr

/-- Embedding of `scan_table`: connection failure gives `CONN_ERR`; an
exception from `get_primary_key` or `has_filter_column` propagates (only the
windowed query is wrapped in `try/except`); a falsy `last_id` (None, `0`,
`""`) is coerced to `NO_RECORD` by `last_id if last_id else "NO_RECORD"`. -/
def scan_table (env : ProbeEnv) (table host : String) : DbRes ScanRes :=
  if env.conn = false then .ok ⟨table, host, none, .strV "CONN_ERR"⟩
  else
    match env.pkCol with
    | .exn => .exn
    | .ok none => .ok ⟨table, host, none, .strV "NO_PK"⟩
    | .ok (some pk) =>
      if pk = "" then .ok ⟨table, host, none, .strV "NO_PK"⟩
      else
        match env.hasFilt with
        | .exn => .exn
        | .ok false => .ok ⟨table, host, some pk, .strV "NO_COLUMN"⟩
        | .ok true =>
          match env.lastRec with
          | .exn => .ok ⟨table, host, some pk, .strV "ERR"⟩
          | .ok none => .ok ⟨table, host, some pk, .strV "NO_RECORD"⟩
          | .ok (some v) =>
            .ok ⟨table, host, some pk, if v.truthy then v else .strV "NO_RECORD"⟩

/-- A probe whose windowed-query step runs `get_last_record` over the node's
actual rows (the composition the script performs when the query raises no
exception). -/
def probeWithRows (c : Bool) (pkr : DbRes (Option String)) (hf : DbRes Bool)
    (rows : List Row) (d : Int) (t h : String) : DbRes ScanRes :=
  scan_table ⟨c, pkr, hf, DbRes.ok (get_last_record rows d)⟩ t h

/-! ### The result-reduction loop of `main`

Python dictionaries are insertion-ordered maps; we model them as association
lists where assignment replaces an existing binding in place and appends a
new binding at the end. -/

/-- Dictionary lookup `d.get(k)`. -/
def alget {α : Type} : List (String × α) → String → Option α
  | [], _ => none
  | (k', v') :: rest, k => if k' = k then some v' else alget rest k

/-- Dictionary assignment `d[k] = v`. -/
def alset {α : Type} : List (String × α) → String → α → List (String × α)
  | [], k, v => [(k, v)]
  | (k', v') :: rest, k, v =>
    if k' = k then (k, v) :: rest else (k', v') :: alset rest k v

/-- The per-table accumulator `results[table] = {"pk": ..., "values": {...}}`. -/
structure TableAcc where
  pk : Option String
  values : List (String × PyVal)
deriving DecidableEq, Repr

/-- The mutable state of `main`'s result-collection loop. -/
structure RedState where
  results : List (String × TableAcc)
  missing_column : List String
  missing_pk : List String
  missing_record : List String
deriving DecidableEq, Repr

/-- The empty initial state. -/
def initState : RedState := ⟨[], [], [], []⟩

/-- `if t not in l: l.append(t)`. -/
def addUniq (l : List String) (t : String) : List String :=
  if t ∈ l then l else l ++ [t]

/-- The string `f"{YELLOW}N/A{RESET}"` stored in place of a `NO_RECORD` value
(and used as the per-host default when rendering). -/
def naColored : String := "\x1b[93mN/A\x1b[0m"

/-- The accumulator for `r.table` after the statement
`if table not in results: results[table] = {"pk": pk_col, "values": {}}`. -/
def curAcc (s : RedState) (r : ScanRes) : TableAcc :=
  match alget s.results r.table with
  | some a => a
  | none => ⟨r.pk, []⟩

/-- The accumulator after the statement
`if pk_col: results[table]["pk"] = pk_col` (Python truthiness: a `None` or
empty name does not overwrite). -/
def pkAcc (s : RedState) (r : ScanRes) : TableAcc :=
  match r.pk with
  | some p => if p = "" then curAcc s r else { curAcc s r with pk := some p }
  | none => curAcc s r

/-- Processing of one completed future in `main`'s `as_completed` loop:
`NO_COLUMN` and `NO_PK` are classified and then `continue` (no value entry);
`NO_RECORD` is replaced by the colored `N/A` string before being stored;
everything else is stored as-is under the host key. -/
def reduceStep (s : RedState) (r : ScanRes) : RedState :=
  if r.value = PyVal.strV "NO_COLUMN" then
    { s with results := alset s.results r.table (pkAcc s r),
             missing_column := addUniq s.missing_column r.table }
  else if r.value = PyVal.strV "NO_PK" then
    { s with results := alset s.results r.table (pkAcc s r),
             missing_pk := addUniq s.missing_pk r.table }
  else if r.value = PyVal.strV "NO_RECORD" then
    { s with results := alset s.results r.table
               { pkAcc s r with
                 values := alset (pkAcc s r).values r.host (PyVal.strV naColored) },
             missing_record := addUniq s.missing_record r.table }
  else
    { s with results := alset s.results r.table
               { pkAcc s r with
                 values := alset (pkAcc s r).values r.host r.value } }

/-- The whole reduction: fold the arrival-ordered probe results into state. -/
def reduce (rs : List ScanRes) : RedState :=
  rs.foldl reduceStep initState

/-- One turn of `main`'s collection loop over the raw futures: a raised
exception from `future.result()` propagates and aborts the run (`none`). -/
def runStep (acc : Option RedState) (o : DbRes ScanRes) : Option RedState :=
  match acc, o with
  | some s, .ok r => some (reduceStep s r)
  | _, _ => none

/-- `main`'s collection loop over the raw futures. -/
def runScan (outs : List (DbRes ScanRes)) : Option RedState :=
  outs.foldl runStep (some initState)

/-- The host-discovery loop of `main`: try hosts in order, keep the first
that accepts a connection. -/
def discover (hosts : List String) (connect : String → Bool) : Option String :=
  hosts.find? connect

/-! ### Discrepancy detection over rendered cells -/

/-- Whether the first char list occurs at the head of the second. -/
def leadMatch : List Char → List Char → Bool
  | [], _ => true
  | _ :: _, [] => false
  | a :: as, b :: bs => a = b && leadMatch as bs

/-- Whether the first char list occurs inside the second (Python `in`). -/
def subSearch (n : List Char) : List Char → Bool
  | [] => leadMatch n []
  | b :: bs => leadMatch n (b :: bs) || subSearch n bs

/-- Python `needle in hay` on strings. -/
def containsSubstr (needle hay : String) : Bool :=
  subSearch needle.toList hay.toList

/-- The exclusion test of lines 291-299: a cell string takes part in the
comparison, and may be flagged, only when it contains neither `"N/A"` nor
`"ERR"`. -/
def cleanCell (v : String) : Bool :=
  !containsSubstr "N/A" v && !containsSubstr "ERR" v

/-- `clean_values`: the cell strings retained for mismatch detection. -/
def clean_values (hv : List String) : List String :=
  hv.filter cleanCell

/-- `mismatch = len(set(clean_values)) > 1`. -/
def mismatch (hv : List String) : Bool :=
  decide (1 < (clean_values hv).dedup.length)

/-- `host_values`: per host, `str(info["values"].get(host, f"{YELLOW}N/A{RESET}"))`. -/
def host_values (acc : TableAcc) (hosts : List String) : List String :=
  hosts.map (fun h => ((alget acc.values h).getD (PyVal.strV naColored)).toStr)

/-- The mismatch verdict of one rendered table row (a table never probed is
not rendered, giving `false`). -/
def tableMismatch (s : RedState) (t : String) (hosts : List String) : Bool :=
  match alget s.results t with
  | none => false
  | some acc => mismatch (host_values acc hosts)

/-- The rendered cell of one (table, host): the stored value, defaulting to
the colored `N/A` string, under `str()`. -/
def cellStr (s : RedState) (t h : String) : String :=
  (((alget s.results t).bind (fun acc => alget acc.values h)).getD
    (PyVal.strV naColored)).toStr

/-- Whether line 298 renders a cell red:
`mismatch and "N/A" not in val and "ERR" not in val`. -/
def cellFlag (hv : List String) (v : String) : Bool :=
  mismatch hv && !containsSubstr "N/A" v && !containsSubstr "ERR" v

/-- The recorded outcome of one (table, host) in the reduced state. -/
def lookupValue (s : RedState) (t h : String) : Option PyVal :=
  match alget s.results t with
  | none => none
  | some acc => alget acc.values h

/-- The resolved primary-key name of a table in the reduced state. -/
def tablePk (s : RedState) (t : String) : Option String :=
  match alget s.results t with
  | none => none
  | some acc => acc.pk

/-- Outcomes that `main` stores into the per-table values dictionary (all but
the `continue` branches for `NO_COLUMN` and `NO_PK`). -/
def storable (v : PyVal) : Bool :=
  !(v = PyVal.strV "NO_COLUMN") && !(v = PyVal.strV "NO_PK")

/-- What is stored for a storable outcome: `NO_RECORD` is replaced by the
colored `N/A` string, anything else is stored as-is. -/
def render (v : PyVal) : PyVal :=
  if v = PyVal.strV "NO_RECORD" then PyVal.strV naColored else v

/-- Each (table, host) pair occurs at most once among the probe results, as
the scheduler submits exactly one probe per pair. -/
def uniquePairs (rs : List ScanRes) : Prop :=
  rs.Pairwise (fun a b => ¬(a.table = b.table ∧ a.host = b.host))

/-! ### Lemmas about `get_last_record` -/

theorem foldl_scanStep_mem : ∀ (rs : List Row) (r : Row), rs.foldl scanStep r ∈ r :: rs := by
  intro rs
  induction rs with
  | nil => intro r; simp [List.foldl]
  | cons x xs ih =>
    intro r
    simp only [List.foldl]
    have hs : scanStep r x = x ∨ scanStep r x = r := by
      unfold scanStep; by_cases hc : r.filt < x.filt <;> simp [hc]
    rcases List.mem_cons.mp (ih (scanStep r x)) with h | h
    · rcases hs with hs | hs <;> rw [h, hs] <;> simp
    · simp [List.mem_cons, h]

theorem foldl_scanStep_le :
    ∀ (rs : List Row) (r x : Row), x ∈ r :: rs → x.filt ≤ (rs.foldl scanStep r).filt := by
  intro rs
  induction rs with
  | nil => intro r x hx; simp at hx; simp [hx, List.foldl]
  | cons y ys ih =>
    intro r x hx
    simp only [List.foldl]
    rcases List.mem_cons.mp hx with h | h
    · subst h
      have : x.filt ≤ (scanStep x y).filt := by
        unfold scanStep; by_cases hc : x.filt < y.filt <;> simp [hc]
        exact le_of_lt hc
      exact le_trans this (ih (scanStep x y) _ (List.mem_cons_self _ _))
    · rcases List.mem_cons.mp h with h' | h'
      · subst h'
        have : x.filt ≤ (scanStep r x).filt := by
          unfold scanStep; by_cases hc : r.filt < x.filt <;> simp [hc]
          exact le_of_not_lt hc
        exact le_trans this (ih (scanStep r x) _ (List.mem_cons_self _ _))
      · exact ih (scanStep r y) x (List.mem_cons_of_mem _ h')

/-! ### Lemmas about the association-list dictionaries -/

theorem alget_alset_self {α : Type} (l : List (String × α)) (k : String) (v : α) :
    alget (alset l k v) k = some v := by
  induction l with
  | nil => simp [alset, alget]
  | cons p rest ih =>
    obtain ⟨k', v'⟩ := p
    by_cases h : k' = k
    · simp [alset, alget, h]
    · simp [alset, alget, h, ih]

theorem alget_alset_of_ne {α : Type} (l : List (String × α)) {k t : String} (v : α)
    (h : ¬k = t) : alget (alset l k v) t = alget l t := by
  induction l with
  | nil => simp [alset, alget, h]
  | cons p rest ih =>
    obtain ⟨k', v'⟩ := p
    by_cases hk : k' = k
    · subst hk; simp [alset, alget, h]
    · have h' : ¬t = k := fun he => h he.symm
      by_cases ht : k' = t <;> simp [alset, alget, hk, ht, h', ih]

theorem alget_alset_isSome {α : Type} (l : List (String × α)) (k t : String) (v : α) :
    (alget (alset l k v) t).isSome = ((alget l t).isSome || decide (k = t)) := by
  by_cases h : k = t
  · subst h; rw [alget_alset_self]; simp
  · rw [alget_alset_of_ne _ _ h]; simp [h]

theorem mem_addUniq (l : List String) (t x : String) :
    x ∈ addUniq l t ↔ x ∈ l ∨ x = t := by
  unfold addUniq
  by_cases h : t ∈ l
  · simp only [if_pos h]
    exact ⟨Or.inl, fun hx => hx.elim id (fun he => he ▸ h)⟩
  · simp [if_neg h]

/-! ### Lemmas about one reduction step -/

theorem curAcc_values (s : RedState) (r : ScanRes) :
    (curAcc s r).values = ((alget s.results r.table).map TableAcc.values).getD [] := by
  unfold curAcc
  cases alget s.results r.table <;> rfl

theorem pkAcc_values (s : RedState) (r : ScanRes) :
    (pkAcc s r).values = (curAcc s r).values := by
  unfold pkAcc
  cases r.pk with
  | none => rfl
  | some p => by_cases h : p = "" <;> simp [h]

theorem pkAcc_pk_isSome (s : RedState) (r : ScanRes)
    (h : (curAcc s r).pk.isSome = true) : (pkAcc s r).pk.isSome = true := by
  unfold pkAcc
  cases r.pk with
  | none => exact h
  | some p => by_cases hp : p = "" <;> simp [hp, h]

theorem reduceStep_results (s : RedState) (r : ScanRes) :
    (reduceStep s r).results =
      alset s.results r.table
        { pk := (pkAcc s r).pk,
          values := if storable r.value = true
                    then alset (pkAcc s r).values r.host (render r.value)
                    else (pkAcc s r).values } := by
  unfold reduceStep storable render
  by_cases h1 : r.value = PyVal.strV "NO_COLUMN"
  · simp [h1]
  · by_cases h2 : r.value = PyVal.strV "NO_PK"
    · simp [h1, h2]
    · by_cases h3 : r.value = PyVal.strV "NO_RECORD" <;> simp [h1, h2, h3]

theorem reduceStep_missing_column (s : RedState) (r : ScanRes) :
    (reduceStep s r).missing_column =
      if r.value = PyVal.strV "NO_COLUMN" then addUniq s.missing_column r.table
      else s.missing_column := by
  unfold reduceStep
  by_cases h1 : r.value = PyVal.strV "NO_COLUMN"
  · simp [h1]
  · by_cases h2 : r.value = PyVal.strV "NO_PK"
    · simp [h1, h2]
    · by_cases h3 : r.value = PyVal.strV "NO_RECORD" <;> simp [h1, h2, h3]

theorem reduceStep_missing_pk (s : RedState) (r : ScanRes) :
    (reduceStep s r).missing_pk =
      if r.value = PyVal.strV "NO_PK" then addUniq s.missing_pk r.table
      else s.missing_pk := by
  unfold reduceStep
  by_cases h1 : r.value = PyVal.strV "NO_COLUMN"
  · simp [h1]
  · by_cases h2 : r.value = PyVal.strV "NO_PK"
    · simp [h1, h2]
    · by_cases h3 : r.value = PyVal.strV "NO_RECORD" <;> simp [h1, h2, h3]

theorem reduceStep_missing_record (s : RedState) (r : ScanRes) :
    (reduceStep s r).missing_record =
      if r.value = PyVal.strV "NO_RECORD" then addUniq s.missing_record r.table
      else s.missing_record := by
  unfold reduceStep
  by_cases h1 : r.value = PyVal.strV "NO_COLUMN"
  · simp [h1]
  · by_cases h2 : r.value = PyVal.strV "NO_PK"
    · simp [h1, h2]
    · by_cases h3 : r.value = PyVal.strV "NO_RECORD" <;> simp [h1, h2, h3]

theorem lookupValue_step (s : RedState) (r : ScanRes) (t h : String) :
    lookupValue (reduceStep s r) t h =
      if r.table = t ∧ r.host = h ∧ storable r.value = true then some (render r.value)
      else lookupValue s t h := by
  have hbase : alget (pkAcc s r).values h = lookupValue s r.table h := by
    unfold lookupValue
    rw [pkAcc_values, curAcc_values]
    cases alget s.results r.table <;> rfl
  unfold lookupValue
  rw [reduceStep_results]
  by_cases ht : r.table = t
  · subst ht
    rw [alget_alset_self]
    show alget (if storable r.value = true
                then alset (pkAcc s r).values r.host (render r.value)
                else (pkAcc s r).values) h = _
    by_cases hs : storable r.value = true
    · rw [if_pos hs]
      by_cases hh : r.host = h
      · subst hh
        rw [alget_alset_self, if_pos ⟨rfl, rfl, hs⟩]
      · rw [alget_alset_of_ne _ _ hh, if_neg (fun hc => hh hc.2.1)]
        exact hbase
    · rw [if_neg hs, if_neg (fun hc => hs hc.2.2)]
      exact hbase
  · rw [alget_alset_of_ne _ _ ht, if_neg (fun hc => ht hc.1)]

theorem lookupValue_init (t h : String) : lookupValue initState t h = none := rfl

theorem lookupValue_foldl_no_hit (rs : List ScanRes) (s : RedState) (t h : String)
    (hn : ∀ r ∈ rs, ¬(r.table = t ∧ r.host = h)) :
    lookupValue (rs.foldl reduceStep s) t h = lookupValue s t h := by
  induction rs generalizing s with
  | nil => rfl
  | cons r rs ih =>
    simp only [List.foldl]
    rw [ih _ (fun r' hr' => hn r' (List.mem_cons_of_mem _ hr'))]
    rw [lookupValue_step, if_neg]
    intro hc
    exact hn r (List.mem_cons_self _ _) ⟨hc.1, hc.2.1⟩

theorem lookupValue_reduce_hit (rs : List ScanRes) (r : ScanRes)
    (hu : uniquePairs rs) (hr : r ∈ rs) :
    lookupValue (reduce rs) r.table r.host =
      if storable r.value = true then some (render r.value) else none := by
  obtain ⟨l1, l2, rfl⟩ := List.append_of_mem hr
  unfold reduce
  rw [List.foldl_append]
  have hu' := List.pairwise_append.mp hu
  have h1 : ∀ r' ∈ l1, ¬(r'.table = r.table ∧ r'.host = r.host) := by
    intro r' hr'
    exact hu'.2.2 r' hr' r (List.mem_cons_self _ _)
  have h2 : ∀ r' ∈ l2, ¬(r'.table = r.table ∧ r'.host = r.host) := by
    intro r' hr' hc
    exact (List.pairwise_cons.mp hu'.2.1).1 r' hr' ⟨hc.1.symm, hc.2.symm⟩
  simp only [List.foldl]
  rw [lookupValue_foldl_no_hit _ _ _ _ h2]
  rw [lookupValue_step]
  by_cases hs : storable r.value = true
  · rw [if_pos ⟨rfl, rfl, hs⟩, if_pos hs]
  · rw [if_neg (fun hc => hs hc.2.2), if_neg hs]
    rw [lookupValue_foldl_no_hit _ _ _ _ h1]
    rfl

theorem lookupValue_reduce_no_hit (rs : List ScanRes) (t h : String)
    (hn : ∀ r ∈ rs, ¬(r.table = t ∧ r.host = h)) :
    lookupValue (reduce rs) t h = none := by
  unfold reduce
  rw [lookupValue_foldl_no_hit _ _ _ _ hn]
  rfl

/-! ### Membership in the three summary lists -/

theorem mem_missing_column_foldl (rs : List ScanRes) (s : RedState) (t : String) :
    t ∈ (rs.foldl reduceStep s).missing_column ↔
      t ∈ s.missing_column ∨ ∃ r ∈ rs, r.value = PyVal.strV "NO_COLUMN" ∧ r.table = t := by
  induction rs generalizing s with
  | nil => simp
  | cons r rs ih =>
    simp only [List.foldl]
    rw [ih, reduceStep_missing_column]
    by_cases h : r.value = PyVal.strV "NO_COLUMN"
    · rw [if_pos h]
      simp only [mem_addUniq, List.mem_cons, h]
      constructor
      · rintro (((hm | he) | hx))
        · exact Or.inl hm
        · exact Or.inr ⟨r, Or.inl rfl, h, he.symm⟩
        · obtain ⟨r', hr', hv, ht⟩ := hx
          exact Or.inr ⟨r', Or.inr hr', hv, ht⟩
      · rintro (hm | ⟨r', hr' | hr', hv, ht⟩)
        · exact Or.inl (Or.inl hm)
        · exact Or.inl (Or.inr (hr' ▸ ht.symm))
        · exact Or.inr ⟨r', hr', hv, ht⟩
    · rw [if_neg h]
      simp only [List.mem_cons]
      constructor
      · rintro (hm | ⟨r', hr', hv, ht⟩)
        · exact Or.inl hm
        · exact Or.inr ⟨r', Or.inr hr', hv, ht⟩
      · rintro (hm | ⟨r', hr' | hr', hv, ht⟩)
        · exact Or.inl hm
        · exact absurd (hr' ▸ hv) h
        · exact Or.inr ⟨r', hr', hv, ht⟩

theorem mem_missing_pk_foldl (rs : List ScanRes) (s : RedState) (t : String) :
    t ∈ (rs.foldl reduceStep s).missing_pk ↔
      t ∈ s.missing_pk ∨ ∃ r ∈ rs, r.value = PyVal.strV "NO_PK" ∧ r.table = t := by
  induction rs generalizing s with
  | nil => simp
  | cons r rs ih =>
    simp only [List.foldl]
    rw [ih, reduceStep_missing_pk]
    by_cases h : r.value = PyVal.strV "NO_PK"
    · rw [if_pos h]
      simp only [mem_addUniq, List.mem_cons, h]
      constructor
      · rintro (((hm | he) | hx))
        · exact Or.inl hm
        · exact Or.inr ⟨r, Or.inl rfl, h, he.symm⟩
        · obtain ⟨r', hr', hv, ht⟩ := hx
          exact Or.inr ⟨r', Or.inr hr', hv, ht⟩
      · rintro (hm | ⟨r', hr' | hr', hv, ht⟩)
        · exact Or.inl (Or.inl hm)
        · exact Or.inl (Or.inr (hr' ▸ ht.symm))
        · exact Or.inr ⟨r', hr', hv, ht⟩
    · rw [if_neg h]
      simp only [List.mem_cons]
      constructor
      · rintro (hm | ⟨r', hr', hv, ht⟩)
        · exact Or.inl hm
        · exact Or.inr ⟨r', Or.inr hr', hv, ht⟩
      · rintro (hm | ⟨r', hr' | hr', hv, ht⟩)
        · exact Or.inl hm
        · exact absurd (hr' ▸ hv) h
        · exact Or.inr ⟨r', hr', hv, ht⟩

theorem mem_missing_record_foldl (rs : List ScanRes) (s : RedState) (t : String) :
    t ∈ (rs.foldl reduceStep s).missing_record ↔
      t ∈ s.missing_record ∨ ∃ r ∈ rs, r.value = PyVal.strV "NO_RECORD" ∧ r.table = t := by
  induction rs generalizing s with
  | nil => simp
  | cons r rs ih =>
    simp only [List.foldl]
    rw [ih, reduceStep_missing_record]
    by_cases h : r.value = PyVal.strV "NO_RECORD"
    · rw [if_pos h]
      simp only [mem_addUniq, List.mem_cons, h]
      constructor
      · rintro (((hm | he) | hx))
        · exact Or.inl hm
        · exact Or.inr ⟨r, Or.inl rfl, h, he.symm⟩
        · obtain ⟨r', hr', hv, ht⟩ := hx
          exact Or.inr ⟨r', Or.inr hr', hv, ht⟩
      · rintro (hm | ⟨r', hr' | hr', hv, ht⟩)
        · exact Or.inl (Or.inl hm)
        · exact Or.inl (Or.inr (hr' ▸ ht.symm))
        · exact Or.inr ⟨r', hr', hv, ht⟩
    · rw [if_neg h]
      simp only [List.mem_cons]
      constructor
      · rintro (hm | ⟨r', hr', hv, ht⟩)
        · exact Or.inl hm
        · exact Or.inr ⟨r', Or.inr hr', hv, ht⟩
      · rintro (hm | ⟨r', hr' | hr', hv, ht⟩)
        · exact Or.inl hm
        · exact absurd (hr' ▸ hv) h
        · exact Or.inr ⟨r', hr', hv, ht⟩

/-! ### Presence of a table in the results dictionary -/

theorem results_isSome_step (s : RedState) (r : ScanRes) (t : String) :
    (alget (reduceStep s r).results t).isSome =
      ((alget s.results t).isSome || decide (r.table = t)) := by
  rw [reduceStep_results, alget_alset_isSome]

theorem results_isSome_foldl (rs : List ScanRes) (s : RedState) (t : String) :
    (alget (rs.foldl reduceStep s).results t).isSome =
      ((alget s.results t).isSome || rs.any (fun r => decide (r.table = t))) := by
  induction rs generalizing s with
  | nil => simp
  | cons r rs ih =>
    simp only [List.foldl, List.any_cons]
    rw [ih, results_isSome_step]
    rw [Bool.or_assoc]

theorem results_isSome_reduce (rs : List ScanRes) (t : String) :
    (alget (reduce rs).results t).isSome = rs.any (fun r => decide (r.table = t)) := by
  unfold reduce
  rw [results_isSome_foldl]
  rfl

/-! ### The resolved primary-key name is monotone in the fold -/

theorem tablePk_isSome_step (s : RedState) (r : ScanRes) (t : String)
    (hp : (tablePk s t).isSome = true) :
    (tablePk (reduceStep s r) t).isSome = true := by
  unfold tablePk at hp ⊢
  rw [reduceStep_results]
  by_cases ht : r.table = t
  · subst ht
    rw [alget_alset_self]
    show (pkAcc s r).pk.isSome = true
    apply pkAcc_pk_isSome
    unfold curAcc
    cases hg : alget s.results r.table with
    | none => rw [hg] at hp; simp at hp
    | some a => rw [hg] at hp; exact hp
  · rw [alget_alset_of_ne _ _ ht]
    exact hp

theorem tablePk_isSome_foldl (rs : List ScanRes) (s : RedState) (t : String)
    (hp : (tablePk s t).isSome = true) :
    (tablePk (rs.foldl reduceStep s) t).isSome = true := by
  induction rs generalizing s with
  | nil => exact hp
  | cons r rs ih => exact ih _ (tablePk_isSome_step s r t hp)

/-! ### The collection loop over raw futures -/

theorem runScan_go_none (outs : List (DbRes ScanRes)) :
    outs.foldl runStep none = none := by
  induction outs with
  | nil => rfl
  | cons o os ih =>
    simp only [List.foldl]
    cases o <;> exact ih

theorem runScan_go (outs : List (DbRes ScanRes)) :
    ∀ s : RedState, (outs.foldl runStep (some s) = none ↔ DbRes.exn ∈ outs) := by
  induction outs with
  | nil => intro s; simp
  | cons o os ih =>
    intro s
    cases o with
    | ok r =>
      simp only [List.foldl, runStep, List.mem_cons]
      rw [ih]
      constructor
      · exact Or.inr
      · rintro (he | hm)
        · exact absurd he.symm (by simp)
        · exact hm
    | exn =>
      simp only [List.foldl, runStep, List.mem_cons]
      rw [runScan_go_none]
      simp

theorem runScan_none_iff (outs : List (DbRes ScanRes)) :
    runScan outs = none ↔ DbRes.exn ∈ outs := by
  unfold runScan
  exact runScan_go outs initState

/-! ### First-success characterisation of `List.find?` -/

theorem find?_first_iff {p : String → Bool} :
    ∀ (l : List String) (n : String),
      l.find? p = some n ↔
        ∃ l1 l2, l = l1 ++ n :: l2 ∧ p n = true ∧ ∀ m ∈ l1, p m = false := by
  intro l
  induction l with
  | nil => intro n; simp
  | cons x xs ih =>
    intro n
    by_cases hx : p x = true
    · rw [List.find?_cons_of_pos _ hx]
      constructor
      · intro he
        obtain rfl : x = n := by injection he
        exact ⟨[], xs, rfl, hx, by simp⟩
      · rintro ⟨l1, l2, heq, hn, hfail⟩
        cases l1 with
        | nil =>
          obtain ⟨rfl, -⟩ : x = n ∧ xs = l2 := by
            constructor <;> injection heq
          rfl
        | cons y ys =>
          obtain ⟨rfl, -⟩ : x = y ∧ xs = ys ++ n :: l2 := by
            constructor <;> injection heq
          exact absurd hx (by rw [hfail x (by simp)]; simp)
    · rw [List.find?_cons_of_neg _ hx]
      rw [ih]
      constructor
      · rintro ⟨l1, l2, heq, hn, hfail⟩
        refine ⟨x :: l1, l2, by rw [heq]; rfl, hn, ?_⟩
        intro m hm
        rcases List.mem_cons.mp hm with rfl | hm'
        · exact Bool.not_eq_true _ ▸ (by revert hx; cases p m <;> simp)
        · exact hfail m hm'
      · rintro ⟨l1, l2, heq, hn, hfail⟩
        cases l1 with
        | nil =>
          obtain ⟨rfl, -⟩ : x = n ∧ xs = l2 := by
            constructor <;> injection heq
          exact absurd hn hx
        | cons y ys =>
          obtain ⟨rfl, htl⟩ : x = y ∧ xs = ys ++ n :: l2 := by
            constructor <;> injection heq
          exact ⟨ys, l2, htl, hn, fun m hm => hfail m (List.mem_cons_of_mem _ hm)⟩

/-! ### Two distinct members and `dedup` length -/

theorem one_lt_length_of_mem_ne {α : Type} {l : List α} {a b : α}
    (ha : a ∈ l) (hb : b ∈ l) (hab : a ≠ b) : 1 < l.length := by
  match l with
  | [] => simp at ha
  | [x] =>
    rw [List.mem_singleton] at ha hb
    exact absurd (ha.trans hb.symm) hab
  | x :: y :: rest => simp only [List.length_cons]; omega

theorem exists_two_ne_of_one_lt_dedup {α : Type} [DecidableEq α] {l : List α}
    (h : 1 < l.dedup.length) : ∃ a ∈ l, ∃ b ∈ l, a ≠ b := by
  match hd : l.dedup with
  | [] => rw [hd] at h; simp at h
  | [x] => rw [hd] at h; simp at h
  | x :: y :: rest =>
    have hnd : (x :: y :: rest).Nodup := hd ▸ l.nodup_dedup
    have hxy : x ≠ y := by
      intro he
      exact (List.nodup_cons.mp hnd).1 (he ▸ List.mem_cons_self _ _)
    have hx : x ∈ l := List.mem_dedup.mp (hd ▸ List.mem_cons_self _ _)
    have hy : y ∈ l :=
      List.mem_dedup.mp (hd ▸ List.mem_cons_of_mem _ (List.mem_cons_self _ _))
    exact ⟨x, hx, y, hy, hxy⟩

theorem one_lt_dedup_of_two_ne {α : Type} [DecidableEq α] {l : List α} {a b : α}
    (ha : a ∈ l) (hb : b ∈ l) (hab : a ≠ b) : 1 < l.dedup.length :=
  one_lt_length_of_mem_ne (List.mem_dedup.mpr ha) (List.mem_dedup.mpr hb) hab

/-! ### Helper characterisations used by the claim theorems -/

theorem missing_column_reduce_iff (rs : List ScanRes) (t : String) :
    t ∈ (reduce rs).missing_column ↔
      ∃ r ∈ rs, r.value = PyVal.strV "NO_COLUMN" ∧ r.table = t := by
  unfold reduce
  rw [mem_missing_column_foldl]
  simp [initState]

theorem missing_pk_reduce_iff (rs : List ScanRes) (t : String) :
    t ∈ (reduce rs).missing_pk ↔
      ∃ r ∈ rs, r.value = PyVal.strV "NO_PK" ∧ r.table = t := by
  unfold reduce
  rw [mem_missing_pk_foldl]
  simp [initState]

theorem missing_record_reduce_iff (rs : List ScanRes) (t : String) :
    t ∈ (reduce rs).missing_record ↔
      ∃ r ∈ rs, r.value = PyVal.strV "NO_RECORD" ∧ r.table = t := by
  unfold reduce
  rw [mem_missing_record_foldl]
  simp [initState]

theorem cellStr_of_present (s : RedState) (t : String) (acc : TableAcc)
    (hp : alget s.results t = some acc) (h : String) :
    cellStr s t h = ((alget acc.values h).getD (PyVal.strV naColored)).toStr := by
  unfold cellStr
  rw [hp]
  rfl

theorem mem_clean_host_values (acc : TableAcc) (hosts : List String) (a : String) :
    a ∈ clean_values (host_values acc hosts) ↔
      (∃ h ∈ hosts, ((alget acc.values h).getD (PyVal.strV naColored)).toStr = a) ∧
        cleanCell a = true := by
  unfold clean_values host_values
  rw [List.mem_filter]
  simp [List.mem_map]

theorem get_last_record_none_iff (rows : List Row) (d : Int) :
    get_last_record rows d = none ↔ ∀ r ∈ rows, inWindow d r = false := by
  unfold get_last_record
  cases hm : rows.filter (inWindow d) with
  | nil =>
    show (none : Option PyVal) = none ↔ _
    constructor
    · intro _ r hr
      have hnot := List.filter_eq_nil_iff.mp hm r hr
      revert hnot
      cases inWindow d r <;> simp
    · intro _
      rfl
  | cons r rs =>
    show some _ = none ↔ _
    constructor
    · intro habs
      exact absurd habs (Option.some_ne_none _)
    · intro hall
      have hmem : r ∈ rows.filter (inWindow d) := by
        rw [hm]
        exact List.mem_cons_self _ _
      obtain ⟨hr, hw⟩ := List.mem_filter.mp hmem
      rw [hall r hr] at hw
      exact absurd hw (by simp)

theorem get_last_record_some (rows : List Row) (d : Int) (v : PyVal)
    (h : get_last_record rows d = some v) :
    ∃ r ∈ rows, inWindow d r = true ∧ r.pk = v ∧
      ∀ r' ∈ rows, inWindow d r' = true → r'.filt ≤ r.filt := by
  unfold get_last_record at h
  cases hm : rows.filter (inWindow d) with
  | nil =>
    rw [hm] at h
    exact absurd h (Option.noConfusion)
  | cons r rs =>
    rw [hm] at h
    have hv : (rs.foldl scanStep r).pk = v := by injection h
    have hmm : rs.foldl scanStep r ∈ r :: rs := foldl_scanStep_mem rs r
    have hmf : rs.foldl scanStep r ∈ rows.filter (inWindow d) := by
      rw [hm]
      exact hmm
    obtain ⟨hmrows, hmw⟩ := List.mem_filter.mp hmf
    refine ⟨rs.foldl scanStep r, hmrows, hmw, hv, ?_⟩
    intro r' hr' hw'
    have hrf : r' ∈ rows.filter (inWindow d) := List.mem_filter.mpr ⟨hr', hw'⟩
    rw [hm] at hrf
    exact foldl_scanStep_le rs r r' hrf

/-! ## Claim theorems -/

/-- C1, counterexample: a probe that reaches the windowed query over the rows
{(pk 5, filt 0), (pk 3, filt 1)} with target date 0 returns `Value 3`, yet the
row with primary key 5 also lies in the window and 5 > 3 — the returned value
is not the maximum primary-key value in the window. -/
theorem C1_counterexample :
    probeWithRows true (DbRes.ok (some "id")) (DbRes.ok true)
        [⟨PyVal.intV 5, 0⟩, ⟨PyVal.intV 3, 1⟩] 0 "t" "h1"
      = DbRes.ok ⟨"t", "h1", some "id", PyVal.intV 3⟩ ∧
    inWindow 0 ⟨PyVal.intV 5, 0⟩ = true ∧
    ¬(5 : Int) ≤ 3 := by decide

/-- C1 (amended): the windowed query returns `none` exactly when no row's
filter column lies in `[targetDate, targetDate + 1 day)`, and when it returns
a value, that value is the primary-key value of a window row whose
filter-column value is maximal among the window rows (selected by
`ORDER BY filter_column DESC LIMIT 1`) — not necessarily the maximal
primary-key value. -/
theorem C1_last_record_char (rows : List Row) (d : Int) :
    (get_last_record rows d = none ↔ ∀ r ∈ rows, inWindow d r = false) ∧
    (∀ v, get_last_record rows d = some v →
      ∃ r ∈ rows, inWindow d r = true ∧ r.pk = v ∧
        ∀ r' ∈ rows, inWindow d r' = true → r'.filt ≤ r.filt) :=
  ⟨get_last_record_none_iff rows d, fun v h => get_last_record_some rows d v h⟩

/-- C2, counterexample: two nodes return the distinct genuine `Value` outcomes
"ERR5" and "7" for the same table (both produced by `scan_table` from a
successful windowed fetch), yet the detector reports no discrepancy, because
the rendering "ERR5" contains "ERR" and is excluded from the comparison. -/
theorem C2_counterexample :
    scan_table ⟨true, .ok (some "id"), .ok true, .ok (some (.strV "ERR5"))⟩ "t" "h1"
      = .ok ⟨"t", "h1", some "id", .strV "ERR5"⟩ ∧
    scan_table ⟨true, .ok (some "id"), .ok true, .ok (some (.strV "7"))⟩ "t" "h2"
      = .ok ⟨"t", "h2", some "id", .strV "7"⟩ ∧
    PyVal.strV "ERR5" ≠ PyVal.strV "7" ∧
    tableMismatch
        (reduce [⟨"t", "h1", some "id", .strV "ERR5"⟩, ⟨"t", "h2", some "id", .strV "7"⟩])
        "t" ["h1", "h2"] = false := by decide

/-- C2 (amended): for a probed table, `hasDiscrepancy` is true iff at least
two of its hosts have cell renderings that contain neither "N/A" nor "ERR"
as a substring and differ from each other.  Non-`Value` outcomes always
render with one of those substrings and so never contribute, but a `Value`
outcome whose string rendering contains "N/A" or "ERR" is excluded too, and
distinctness is judged on `str()` renderings rather than on the values. -/
theorem C2_hasDiscrepancy_char (s : RedState) (t : String) (hosts : List String)
    (acc : TableAcc) (hp : alget s.results t = some acc) :
    tableMismatch s t hosts = true ↔
      ∃ h1 ∈ hosts, ∃ h2 ∈ hosts,
        cleanCell (cellStr s t h1) = true ∧ cleanCell (cellStr s t h2) = true ∧
        cellStr s t h1 ≠ cellStr s t h2 := by
  have hcell : ∀ h, cellStr s t h = ((alget acc.values h).getD (PyVal.strV naColored)).toStr :=
    cellStr_of_present s t acc hp
  unfold tableMismatch
  rw [hp]
  show mismatch (host_values acc hosts) = true ↔ _
  unfold mismatch
  rw [decide_eq_true_eq]
  constructor
  · intro hlen
    obtain ⟨a, ha, b, hb, hab⟩ := exists_two_ne_of_one_lt_dedup hlen
    obtain ⟨⟨h1, hh1, he1⟩, hc1⟩ := (mem_clean_host_values acc hosts a).mp ha
    obtain ⟨⟨h2, hh2, he2⟩, hc2⟩ := (mem_clean_host_values acc hosts b).mp hb
    refine ⟨h1, hh1, h2, hh2, ?_, ?_, ?_⟩
    · rw [hcell h1, he1]; exact hc1
    · rw [hcell h2, he2]; exact hc2
    · rw [hcell h1, hcell h2, he1, he2]; exact hab
  · rintro ⟨h1, hh1, h2, hh2, hc1, hc2, hne⟩
    apply one_lt_dedup_of_two_ne
        ((mem_clean_host_values acc hosts (cellStr s t h1)).mpr ⟨⟨h1, hh1, (hcell h1).symm⟩, hc1⟩)
        ((mem_clean_host_values acc hosts (cellStr s t h2)).mpr ⟨⟨h2, hh2, (hcell h2).symm⟩, hc2⟩)
        hne

/-- C2, witness: on the concrete reduced state where host h1 stored 4 and
host h2 stored 5, the characterisation yields a discrepancy. -/
theorem C2_witness :
    tableMismatch
        (reduce [⟨"t", "h1", some "id", PyVal.intV 4⟩, ⟨"t", "h2", some "id", PyVal.intV 5⟩])
        "t" ["h1", "h2"] = true :=
  (C2_hasDiscrepancy_char
      (reduce [⟨"t", "h1", some "id", PyVal.intV 4⟩, ⟨"t", "h2", some "id", PyVal.intV 5⟩])
      "t" ["h1", "h2"]
      ⟨some "id", [("h1", PyVal.intV 4), ("h2", PyVal.intV 5)]⟩ (by decide)).mpr
    ⟨"h1", by decide, "h2", by decide, by decide, by decide, by decide⟩

/-- C3, counterexample: host h1 reports `NO_RECORD` (a genuine no-matching-row
outcome of `scan_table`) while host h2 reports `Value 9` for the same table,
and the table nonetheless lands in the zero-record summary — membership does
not require every node to report `NoMatchingRow`. -/
theorem C3_counterexample :
    scan_table ⟨true, .ok (some "id"), .ok true, .ok none⟩ "t" "h1"
      = .ok ⟨"t", "h1", some "id", .strV "NO_RECORD"⟩ ∧
    scan_table ⟨true, .ok (some "id"), .ok true, .ok (some (.intV 9))⟩ "t" "h2"
      = .ok ⟨"t", "h2", some "id", .intV 9⟩ ∧
    "t" ∈ (reduce [⟨"t", "h1", some "id", .strV "NO_RECORD"⟩,
                   ⟨"t", "h2", some "id", .intV 9⟩]).missing_record := by decide

/-- C3 (amended): a table appears in the zero-record summary iff at least one
probe result for it carries the `NO_RECORD` outcome — a single
`NoMatchingRow` node suffices, regardless of the other nodes' outcomes. -/
theorem C3_missing_record_char (rs : List ScanRes) (t : String) :
    t ∈ (reduce rs).missing_record ↔
      ∃ r ∈ rs, r.value = PyVal.strV "NO_RECORD" ∧ r.table = t :=
  missing_record_reduce_iff rs t

/-- C4, counterexample: a probe whose `get_primary_key` call raises
propagates the exception past the probe boundary instead of returning a
tagged outcome. -/
theorem C4_counterexample :
    scan_table ⟨true, DbRes.exn, DbRes.ok true, DbRes.ok none⟩ "t" "h1" = DbRes.exn := by decide

/-- C4 (amended): a probe propagates an exception exactly when the connection
succeeded and either `get_primary_key` raises, or the primary key resolves
and `has_filter_column` raises; connection failures and windowed-query
failures are always converted to tagged outcomes. -/
theorem C4_exn_iff (env : ProbeEnv) (t h : String) :
    scan_table env t h = DbRes.exn ↔
      env.conn = true ∧
        (env.pkCol = DbRes.exn ∨
          ∃ p, env.pkCol = DbRes.ok (some p) ∧ ¬p = "" ∧ env.hasFilt = DbRes.exn) := by
  obtain ⟨c, pkc, hf, lr⟩ := env
  cases c with
  | false => simp [scan_table]
  | true =>
    cases pkc with
    | exn => simp [scan_table]
    | ok po =>
      cases po with
      | none => simp [scan_table]
      | some p =>
        by_cases hp : p = ""
        · subst hp
          simp [scan_table]
        · cases hf with
          | exn => simp [scan_table, hp]
          | ok b =>
            cases b with
            | false => simp [scan_table, hp]
            | true =>
              cases lr with
              | exn => simp [scan_table, hp]
              | ok lro => cases lro <;> simp [scan_table, hp]

/-- C5, counterexample: a probed (table, host) pair whose outcome is
`NO_COLUMN` gets no entry at all in the per-table values map — the pair's
outcome is omitted rather than recorded. -/
theorem C5_counterexample :
    scan_table ⟨true, .ok (some "id"), .ok false, .ok none⟩ "t" "h1"
      = .ok ⟨"t", "h1", some "id", .strV "NO_COLUMN"⟩ ∧
    lookupValue (reduce [⟨"t", "h1", some "id", .strV "NO_COLUMN"⟩]) "t" "h1" = none := by decide

/-- C5 (amended): when each (table, host) pair occurs at most once among the
probe results, a pair whose outcome is neither `NO_COLUMN` nor `NO_PK` has
exactly one recorded entry (its outcome, with `NO_RECORD` stored as the
colored `N/A` string), while a `NO_COLUMN` or `NO_PK` pair has no entry in
the values map. -/
theorem C5_value_entry (rs : List ScanRes) (r : ScanRes)
    (hu : uniquePairs rs) (hr : r ∈ rs) :
    lookupValue (reduce rs) r.table r.host =
      if storable r.value = true then some (render r.value) else none :=
  lookupValue_reduce_hit rs r hu hr

/-- C5, witness: a single stored probe result is looked up back unchanged. -/
theorem C5_witness :
    lookupValue (reduce [⟨"t", "h1", some "id", PyVal.intV 3⟩]) "t" "h1"
      = some (PyVal.intV 3) :=
  Eq.trans
    (C5_value_entry [⟨"t", "h1", some "id", PyVal.intV 3⟩]
      ⟨"t", "h1", some "id", PyVal.intV 3⟩ (by simp [uniquePairs]) (by simp))
    (by decide)

/-- C6 (code bug): a row with the falsy primary-key value 0 lies inside the
window and the windowed query returns it, yet the probe reports `NO_RECORD`
instead of `Value 0`, because `last_id if last_id else "NO_RECORD"` tests
Python truthiness rather than `is not None`. -/
theorem C6_zero_key_row :
    inWindow 0 ⟨PyVal.intV 0, 5⟩ = true ∧
    get_last_record [⟨PyVal.intV 0, 5⟩] 0 = some (PyVal.intV 0) ∧
    probeWithRows true (DbRes.ok (some "id")) (DbRes.ok true)
        [⟨PyVal.intV 0, 5⟩] 0 "t" "h1"
      = DbRes.ok ⟨"t", "h1", some "id", PyVal.strV "NO_RECORD"⟩ := by decide

/-- C7, counterexample: two probe results for the same table carrying the
different primary-key names "a" and "b" are permutations of each other, yet
the reduced reports disagree on the resolved primary-key name (the
last-arriving non-null name wins). -/
theorem C7_counterexample :
    List.Perm [(⟨"t", "h1", some "a", PyVal.intV 1⟩ : ScanRes),
               ⟨"t", "h2", some "b", PyVal.intV 1⟩]
      [⟨"t", "h2", some "b", PyVal.intV 1⟩, ⟨"t", "h1", some "a", PyVal.intV 1⟩] ∧
    tablePk (reduce [⟨"t", "h1", some "a", PyVal.intV 1⟩,
                     ⟨"t", "h2", some "b", PyVal.intV 1⟩]) "t" = some "b" ∧
    tablePk (reduce [⟨"t", "h2", some "b", PyVal.intV 1⟩,
                     ⟨"t", "h1", some "a", PyVal.intV 1⟩]) "t" = some "a" := by decide

/-- C7 (amended): over any permutation of a duplicate-free probe-result
multiset, the three summary memberships, every recorded (table, host) value,
and every table's mismatch verdict are identical; only the resolved
primary-key name may depend on arrival order (when nodes report different
names). -/
theorem C7_perm_invariance (rs1 rs2 : List ScanRes)
    (hperm : rs1.Perm rs2) (hu : uniquePairs rs1) :
    (∀ t, (t ∈ (reduce rs1).missing_column ↔ t ∈ (reduce rs2).missing_column) ∧
          (t ∈ (reduce rs1).missing_pk ↔ t ∈ (reduce rs2).missing_pk) ∧
          (t ∈ (reduce rs1).missing_record ↔ t ∈ (reduce rs2).missing_record)) ∧
    (∀ t h, lookupValue (reduce rs1) t h = lookupValue (reduce rs2) t h) ∧
    (∀ t hosts, tableMismatch (reduce rs1) t hosts = tableMismatch (reduce rs2) t hosts) := by
  have hmemiff : ∀ r : ScanRes, r ∈ rs1 ↔ r ∈ rs2 := fun r => hperm.mem_iff
  have hu2 : uniquePairs rs2 := by
    unfold uniquePairs at hu ⊢
    exact (List.Perm.pairwise_iff (fun hab hc => hab ⟨hc.1.symm, hc.2.symm⟩) hperm).mp hu
  have hlookup : ∀ t h, lookupValue (reduce rs1) t h = lookupValue (reduce rs2) t h := by
    intro t h
    by_cases hex : ∃ r ∈ rs1, r.table = t ∧ r.host = h
    · obtain ⟨r, hr1, ht, hh⟩ := hex
      subst ht
      subst hh
      rw [lookupValue_reduce_hit rs1 r hu hr1,
          lookupValue_reduce_hit rs2 r hu2 ((hmemiff r).mp hr1)]
    · have hn1 : ∀ r ∈ rs1, ¬(r.table = t ∧ r.host = h) := fun r hr hc => hex ⟨r, hr, hc⟩
      have hn2 : ∀ r ∈ rs2, ¬(r.table = t ∧ r.host = h) :=
        fun r hr hc => hex ⟨r, (hmemiff r).mpr hr, hc⟩
      rw [lookupValue_reduce_no_hit rs1 t h hn1, lookupValue_reduce_no_hit rs2 t h hn2]
  refine ⟨?_, hlookup, ?_⟩
  · intro t
    refine ⟨?_, ?_, ?_⟩
    · rw [missing_column_reduce_iff, missing_column_reduce_iff]
      constructor
      · rintro ⟨r, hr, hv, ht⟩; exact ⟨r, (hmemiff r).mp hr, hv, ht⟩
      · rintro ⟨r, hr, hv, ht⟩; exact ⟨r, (hmemiff r).mpr hr, hv, ht⟩
    · rw [missing_pk_reduce_iff, missing_pk_reduce_iff]
      constructor
      · rintro ⟨r, hr, hv, ht⟩; exact ⟨r, (hmemiff r).mp hr, hv, ht⟩
      · rintro ⟨r, hr, hv, ht⟩; exact ⟨r, (hmemiff r).mpr hr, hv, ht⟩
    · rw [missing_record_reduce_iff, missing_record_reduce_iff]
      constructor
      · rintro ⟨r, hr, hv, ht⟩; exact ⟨r, (hmemiff r).mp hr, hv, ht⟩
      · rintro ⟨r, hr, hv, ht⟩; exact ⟨r, (hmemiff r).mpr hr, hv, ht⟩
  · intro t hosts
    have hpres : (alget (reduce rs1).results t).isSome = (alget (reduce rs2).results t).isSome := by
      rw [results_isSome_reduce, results_isSome_reduce]
      cases h1 : rs1.any (fun r => decide (r.table = t)) with
      | true =>
        obtain ⟨r, hr, hrt⟩ := List.any_eq_true.mp h1
        exact (List.any_eq_true.mpr ⟨r, (hmemiff r).mp hr, hrt⟩).symm
      | false =>
        cases h2 : rs2.any (fun r => decide (r.table = t)) with
        | false => rfl
        | true =>
          obtain ⟨r, hr, hrt⟩ := List.any_eq_true.mp h2
          exact absurd (List.any_eq_true.mpr ⟨r, (hmemiff r).mpr hr, hrt⟩)
            (by rw [h1]; simp)
    unfold tableMismatch
    cases hg1 : alget (reduce rs1).results t with
    | none =>
      cases hg2 : alget (reduce rs2).results t with
      | none => rfl
      | some acc2 => rw [hg1, hg2] at hpres; simp at hpres
    | some acc1 =>
      cases hg2 : alget (reduce rs2).results t with
      | none => rw [hg1, hg2] at hpres; simp at hpres
      | some acc2 =>
        have hvals : host_values acc1 hosts = host_values acc2 hosts := by
          unfold host_values
          apply List.map_congr_left
          intro h hh
          have e1 : alget acc1.values h = lookupValue (reduce rs1) t h := by
            unfold lookupValue
            rw [hg1]
          have e2 : alget acc2.values h = lookupValue (reduce rs2) t h := by
            unfold lookupValue
            rw [hg2]
          rw [e1, e2, hlookup t h]
        show mismatch (host_values acc1 hosts) = mismatch (host_values acc2 hosts)
        rw [hvals]

/-- C7, witness: the recorded value of ("t", "h1") is the same for the two
arrival orders of the two-result set. -/
theorem C7_witness :
    lookupValue (reduce [⟨"t", "h1", some "id", PyVal.intV 1⟩,
                         ⟨"t", "h2", some "id", PyVal.intV 2⟩]) "t" "h1" =
    lookupValue (reduce [⟨"t", "h2", some "id", PyVal.intV 2⟩,
                         ⟨"t", "h1", some "id", PyVal.intV 1⟩]) "t" "h1" :=
  (C7_perm_invariance
      [⟨"t", "h1", some "id", PyVal.intV 1⟩, ⟨"t", "h2", some "id", PyVal.intV 2⟩]
      [⟨"t", "h2", some "id", PyVal.intV 2⟩, ⟨"t", "h1", some "id", PyVal.intV 1⟩]
      (by decide) (by simp [uniquePairs])).2.1 "t" "h1"

/-- C8 (confirmed): once the reduced state holds a non-null primary-key name
for a table, folding any further probe results — including ones that carry no
primary-key name, such as connection failures — leaves the name non-null. -/
theorem C8_pk_not_overwritten (s : RedState) (rs : List ScanRes) (t p : String)
    (hp : tablePk s t = some p) :
    ∃ q, tablePk (rs.foldl reduceStep s) t = some q := by
  have h1 : (tablePk s t).isSome = true := by rw [hp]; rfl
  exact Option.isSome_iff_exists.mp (tablePk_isSome_foldl rs s t h1)

/-- C8, witness: after "t" learned pk "id" from h1, a later `CONN_ERR` result
from h2 with a null pk leaves the name resolved. -/
theorem C8_witness :
    ∃ q, tablePk (List.foldl reduceStep
        (reduce [⟨"t", "h1", some "id", PyVal.intV 1⟩])
        [⟨"t", "h2", none, PyVal.strV "CONN_ERR"⟩]) "t" = some q :=
  C8_pk_not_overwritten (reduce [⟨"t", "h1", some "id", PyVal.intV 1⟩])
    [⟨"t", "h2", none, PyVal.strV "CONN_ERR"⟩] "t" "id" (by decide)

/-- C9, counterexample: although a host is reachable for discovery, a single
probe whose metadata query raises makes the collection loop propagate the
exception and abort the run — per-probe failures can abort the run, so the
"fatal only if no node is reachable" equivalence fails. -/
theorem C9_counterexample :
    discover ["h1"] (fun _ => true) = some "h1" ∧
    runScan [scan_table ⟨true, DbRes.exn, DbRes.ok true, DbRes.ok none⟩ "t" "h1"] = none := by
  decide

/-- C9 (amended): discovery returns no connection iff every candidate host
refuses, and returns host n iff n is the first host in supplied order that
accepts; the scan-collection loop aborts iff some raw probe outcome is a
propagated exception (connection failures and windowed-query errors are
tagged, hence never abort, but metadata-resolution exceptions do). -/
theorem C9_discovery_scan_char (hosts : List String) (connect : String → Bool)
    (outs : List (DbRes ScanRes)) :
    (discover hosts connect = none ↔ ∀ n ∈ hosts, connect n = false) ∧
    (∀ n, discover hosts connect = some n ↔
      ∃ l1 l2, hosts = l1 ++ n :: l2 ∧ connect n = true ∧ ∀ m ∈ l1, connect m = false) ∧
    (runScan outs = none ↔ DbRes.exn ∈ outs) := by
  refine ⟨?_, fun n => find?_first_iff hosts n, runScan_none_iff outs⟩
  unfold discover
  rw [List.find?_eq_none]
  constructor
  · intro hfail n hn
    have hnot := hfail n hn
    revert hnot
    cases connect n <;> simp
  · intro hfail n hn
    rw [hfail n hn]
    simp

/-- C10 (confirmed): any cell whose string rendering contains "N/A" or "ERR"
as a substring — in particular a genuine `Value` whose `str()` contains one of
them — is excluded from the comparison set `clean_values` and is never
rendered as divergent by the flagging condition. -/
theorem C10_masked_cells (hv : List String) (v : String)
    (hsub : containsSubstr "N/A" v = true ∨ containsSubstr "ERR" v = true) :
    v ∉ clean_values hv ∧ cellFlag hv v = false := by
  constructor
  · intro hmem
    have hc : cleanCell v = true := (List.mem_filter.mp hmem).2
    unfold cleanCell at hc
    rcases hsub with h | h <;> rw [h] at hc <;> simp at hc
  · unfold cellFlag
    rcases hsub with h | h <;> rw [h] <;> simp

/-- C10, witness: the cell "CONN_ERR" is excluded and unflagged in the row
["CONN_ERR", "5"]. -/
theorem C10_witness :
    "CONN_ERR" ∉ clean_values ["CONN_ERR", "5"] ∧
      cellFlag ["CONN_ERR", "5"] "CONN_ERR" = false :=
  C10_masked_cells ["CONN_ERR", "5"] "CONN_ERR" (Or.inr (by decide))

end Galera
